import Mathlib

/-!
Verification development for the fortune-nedb adapter (src/lib/helpers.js and
the adapter class in src/unnamed/part_000).  JavaScript objects are modelled
as insertion-ordered association lists with unique keys; JavaScript values as
the inductive `Value`.  Node buffers are lists of byte values (< 256) and the
base64 conversions performed by Buffer#toString and the Buffer constructor are
modelled by `b64Encode` / `b64Decode`.
-/

namespace FortuneNedb

/-- JavaScript runtime values as they flow through the adapter: null,
undefined, booleans, (integer) numbers, strings, Buffers (byte lists),
arrays and plain objects (insertion-ordered key/value lists). -/
inductive Value where
  | null
  | undefined
  | bool (b : Bool)
  | num (n : Int)
  | str (s : String)
  | buf (bytes : List Nat)
  | arr (elems : List Value)
  | obj (entries : List (String × Value))

/-- A JavaScript plain object: insertion-ordered association list. -/
abbrev Obj := List (String × Value)

/-- First-match association-list lookup (JS property read on an object with
unique keys). -/
def alistLookup {α : Type} : List (String × α) → String → Option α
  | [], _ => none
  | e :: rest, key => if e.1 = key then some e.2 else alistLookup rest key

/-- JS property membership test (`key in object`). -/
def hasKey {α : Type} (o : List (String × α)) (key : String) : Bool :=
  (alistLookup o key).isSome

/-- JS property read `object[key]`, yielding undefined when absent. -/
def jsGet (o : Obj) (key : String) : Value :=
  (alistLookup o key).getD .undefined

/-- Keys of an object, in insertion order. -/
def keysOf {α : Type} (o : List (String × α)) : List String :=
  o.map Prod.fst

/-- JS property assignment `object[key] = v`: overwrite in place when the key
already exists (keeping its position), append otherwise. -/
def objInsert : Obj → String → Value → Obj
  | [], key, v => [(key, v)]
  | e :: rest, key, v =>
    if e.1 = key then (e.1, v) :: rest else e :: objInsert rest key v

/-- JS truthiness: null, undefined, false, 0 and the empty string are falsy;
objects (buffers, arrays, plain objects) are always truthy. -/
def truthy : Value → Bool
  | .null => false
  | .undefined => false
  | .bool b => b
  | .num n => n != 0
  | .str s => s ≠ ""
  | .buf _ => true
  | .arr _ => true
  | .obj _ => true

/-- Helper for `jsEntries`: an array's own enumerable properties are its
elements keyed by their decimal index strings. -/
def arrEntries (i : Nat) : List Value → Obj
  | [] => []
  | v :: rest => (toString i, v) :: arrEntries (i + 1) rest

/-- Own enumerable string-keyed entries of a value, as iterated by
`for ... in` / `Object.keys`.  Primitives contribute none (a primitive
string's index keys never match any key the adapter switches on). -/
def jsEntries : Value → Obj
  | .obj es => es
  | .arr l => arrEntries 0 l
  | _ => []

/-- helpers.js `mapValues(object, map)`: immutable mapping over an object,
built by `Object.keys(object).reduce` with `Object.assign`. -/
def mapValues (o : Obj) (map : Value → String → Value) : Obj :=
  o.foldl (fun clone e => objInsert clone e.1 (map e.2 e.1)) []

/-- JS loose `value != null` (true exactly on null and undefined). -/
def nullish : Value → Bool
  | .null => true
  | .undefined => true
  | _ => false

/-- JS array index read `value[i]` (undefined when out of range or not an
array). -/
def vIndex (v : Value) (i : Nat) : Value :=
  match v with
  | .arr l => (l.get? i).getD .undefined
  | _ => .undefined

/-! ## Base64 (Node's `'base64'` buffer encoding) -/

/-- The standard base64 alphabet, as used by Node's `'base64'` encoding. -/
def b64Table : List Char :=
  ['A', 'B', 'C', 'D', 'E', 'F', 'G', 'H', 'I', 'J', 'K', 'L', 'M',
   'N', 'O', 'P', 'Q', 'R', 'S', 'T', 'U', 'V', 'W', 'X', 'Y', 'Z',
   'a', 'b', 'c', 'd', 'e', 'f', 'g', 'h', 'i', 'j', 'k', 'l', 'm',
   'n', 'o', 'p', 'q', 'r', 's', 't', 'u', 'v', 'w', 'x', 'y', 'z',
   '0', '1', '2', '3', '4', '5', '6', '7', '8', '9', '+', '/']

/-- Character for a sextet value. -/
def b64Char (n : Nat) : Char := b64Table.getD n '='

/-- Sextet value of a base64 character (64 when not in the alphabet). -/
def b64Inv (c : Char) : Nat := b64Table.findIdx (fun d => d = c)

/-- Base64 encoding of a byte list, with `=` padding, as produced by
`Buffer#toString('base64')`. -/
def b64Encode : List Nat → List Char
  | a :: b :: c :: rest =>
    b64Char (a / 4) :: b64Char (a % 4 * 16 + b / 16) ::
    b64Char (b % 16 * 4 + c / 64) :: b64Char (c % 64) :: b64Encode rest
  | [a, b] => [b64Char (a / 4), b64Char (a % 4 * 16 + b / 16),
               b64Char (b % 16 * 4), '=']
  | [a] => [b64Char (a / 4), b64Char (a % 4 * 16), '=', '=']
  | [] => []

/-- Base64 decoding of a padded character list, as performed by
`new Buffer(string, 'base64')`. -/
def b64Decode : List Char → List Nat
  | c0 :: c1 :: c2 :: c3 :: rest =>
    if c2 = '=' then
      [b64Inv c0 * 4 + b64Inv c1 / 16]
    else if c3 = '=' then
      [b64Inv c0 * 4 + b64Inv c1 / 16, b64Inv c1 % 16 * 16 + b64Inv c2 / 4]
    else
      (b64Inv c0 * 4 + b64Inv c1 / 16) ::
      (b64Inv c1 % 16 * 16 + b64Inv c2 / 4) ::
      (b64Inv c2 % 4 * 64 + b64Inv c3) :: b64Decode rest
  | _ => []

theorem b64Inv_b64Char : ∀ s : Nat, s < 64 → b64Inv (b64Char s) = s := by decide

theorem b64Char_ne_pad : ∀ s : Nat, s < 64 → b64Char s ≠ '=' := by decide

theorem b64Encode_length (l : List Nat) :
    (b64Encode l).length = (l.length + 2) / 3 * 4 := by
  induction l using b64Encode.induct with
  | case1 a b c rest ih => simp [b64Encode, ih]; omega
  | case2 a b => simp [b64Encode]
  | case3 a => simp [b64Encode]
  | case4 => simp [b64Encode]

theorem b64_roundtrip (l : List Nat) (h : ∀ x ∈ l, x < 256) :
    b64Decode (b64Encode l) = l := by
  induction l using b64Encode.induct with
  | case1 a b c rest ih =>
    have ha : a < 256 := h a (by simp)
    have hb : b < 256 := h b (by simp)
    have hc : c < 256 := h c (by simp)
    have h2 : b % 16 * 4 + c / 64 < 64 := by omega
    have h3 : c % 64 < 64 := by omega
    rw [b64Encode, b64Decode]
    rw [if_neg (b64Char_ne_pad _ h2), if_neg (b64Char_ne_pad _ h3)]
    rw [b64Inv_b64Char _ (by omega), b64Inv_b64Char _ (by omega),
        b64Inv_b64Char _ h2, b64Inv_b64Char _ h3,
        ih (fun x hx => h x (by simp [hx]))]
    congr 1
    · omega
    congr 1
    · omega
    congr 1
    omega
  | case2 a b =>
    have ha : a < 256 := h a (by simp)
    have hb : b < 256 := h b (by simp)
    have h2 : b % 16 * 4 < 64 := by omega
    rw [b64Encode, b64Decode]
    rw [if_neg (b64Char_ne_pad _ h2), if_pos rfl]
    rw [b64Inv_b64Char _ (by omega), b64Inv_b64Char _ (by omega),
        b64Inv_b64Char _ h2]
    congr 1
    · omega
    congr 1
    omega
  | case3 a =>
    have ha : a < 256 := h a (by simp)
    rw [b64Encode, b64Decode, if_pos rfl]
    rw [b64Inv_b64Char _ (by omega), b64Inv_b64Char _ (by omega)]
    congr 1
    omega
  | case4 => rfl

/-! ## Association-list lemmas -/

theorem alistLookup_objInsert (o : Obj) (key : String) (v : Value) (k : String) :
    alistLookup (objInsert o key v) k =
      if k = key then some v else alistLookup o k := by
  induction o with
  | nil =>
    by_cases h : k = key
    · subst h; simp [objInsert, alistLookup]
    · simp [objInsert, alistLookup, h, Ne.symm h]
  | cons e rest ih =>
    by_cases he : e.1 = key
    · subst he
      by_cases hk : e.1 = k
      · subst hk; simp [objInsert, alistLookup]
      · simp [objInsert, alistLookup, hk, Ne.symm hk]
    · by_cases hk : e.1 = k
      · subst hk; simp [objInsert, alistLookup, he]
      · simp [objInsert, alistLookup, he, hk, ih]

theorem hasKey_false_iff {α : Type} (o : List (String × α)) (k : String) :
    hasKey o k = false ↔ alistLookup o k = none := by
  cases h : alistLookup o k <;> simp [hasKey, h]

theorem hasKey_iff_mem {α : Type} (o : List (String × α)) (k : String) :
    hasKey o k = true ↔ k ∈ keysOf o := by
  induction o with
  | nil => simp [hasKey, alistLookup, keysOf]
  | cons e rest ih =>
    by_cases h : e.1 = k
    · simp [hasKey, alistLookup, keysOf, h]
    · simp only [hasKey, keysOf] at ih
      simp [hasKey, alistLookup, keysOf, h, ih, Ne.symm h]

theorem keysOf_objInsert (o : Obj) (key : String) (v : Value) :
    keysOf (objInsert o key v) =
      if hasKey o key then keysOf o else keysOf o ++ [key] := by
  induction o with
  | nil => simp [objInsert, keysOf, hasKey, alistLookup]
  | cons e rest ih =>
    by_cases he : e.1 = key
    · simp [objInsert, keysOf, hasKey, alistLookup, he]
    · by_cases h2 : hasKey rest key
      · simp only [hasKey, alistLookup] at h2
        simp [objInsert, keysOf, hasKey, alistLookup, he, h2] at ih ⊢
        exact ih
      · simp only [hasKey, alistLookup, Bool.not_eq_true] at h2
        simp [objInsert, keysOf, hasKey, alistLookup, he, h2] at ih ⊢
        exact ih

theorem nodup_objInsert (o : Obj) (key : String) (v : Value)
    (h : (keysOf o).Nodup) : (keysOf (objInsert o key v)).Nodup := by
  rw [keysOf_objInsert]
  by_cases hk : hasKey o key
  · simp [hk, h]
  · simp only [hk, Bool.false_eq_true, if_false]
    simp only [List.nodup_append, List.nodup_singleton, true_and]
    refine ⟨h, ?_⟩
    intro a ha hb
    simp only [List.mem_singleton] at hb
    subst hb
    exact hk ((hasKey_iff_mem o a).mpr ha)

theorem alistLookup_append (c d : Obj) (k : String) :
    alistLookup (c ++ d) k =
      match alistLookup c k with
      | some v => some v
      | none => alistLookup d k := by
  induction c with
  | nil => simp [alistLookup]
  | cons e rest ih =>
    by_cases h : e.1 = k <;> simp [alistLookup, h, ih]

theorem objInsert_not_hasKey (o : Obj) (key : String) (v : Value)
    (h : hasKey o key = false) : objInsert o key v = o ++ [(key, v)] := by
  induction o with
  | nil => simp [objInsert]
  | cons e rest ih =>
    simp only [hasKey, alistLookup] at h
    by_cases he : e.1 = key
    · simp [he] at h
    · rw [if_neg he] at h
      simp only [objInsert, if_neg he, List.cons_append]
      rw [ih h]

theorem mapValues_go (f : Value → String → Value) :
    ∀ (o c : Obj), (keysOf o).Nodup →
      (∀ k ∈ keysOf o, hasKey c k = false) →
      o.foldl (fun clone e => objInsert clone e.1 (f e.2 e.1)) c =
        c ++ o.map (fun e => (e.1, f e.2 e.1))
  | [], c, _, _ => by simp
  | e :: rest, c, hnd, hdis => by
    simp only [List.foldl_cons, List.map_cons]
    rw [objInsert_not_hasKey c e.1 _ (hdis e.1 (by simp [keysOf]))]
    rw [show keysOf (e :: rest) = e.1 :: keysOf rest from rfl,
      List.nodup_cons] at hnd
    have hnd1 : e.1 ∉ keysOf rest := hnd.1
    have hnd2 : (keysOf rest).Nodup := hnd.2
    have hdis2 : ∀ k ∈ keysOf rest,
        hasKey (c ++ [(e.1, f e.2 e.1)]) k = false := by
      intro k hk
      have hkc : alistLookup c k = none := (hasKey_false_iff c k).mp
        (hdis k (by simp [keysOf] at hk ⊢; exact Or.inr hk))
      have hne : ¬ (e.1 = k) := fun hekey => hnd1 (hekey ▸ hk)
      rw [hasKey_false_iff, alistLookup_append, hkc]
      simp [alistLookup, hne]
    rw [mapValues_go f rest (c ++ [(e.1, f e.2 e.1)]) hnd2 hdis2]
    simp

/-- With unique keys (as all JS objects have), `mapValues` is a plain map
over the entries. -/
theorem mapValues_eq_map (o : Obj) (f : Value → String → Value)
    (h : (keysOf o).Nodup) :
    mapValues o f = o.map (fun e => (e.1, f e.2 e.1)) := by
  have := mapValues_go f o [] h (by intro k _; rfl)
  simpa [mapValues] using this

/-! ## Record codec (src/lib/helpers.js) -/

/-- The store-internal identifier key (helpers.js `idKey`). -/
def idKey : String := "_id"

/-- Kind of a schema field's declared type: the `Buffer` constructor or any
other constructor (String, Number, ...).  The codec only ever distinguishes
Buffer from everything else. -/
inductive FieldKind where
  | buffer
  | plain
deriving DecidableEq

/-- A field descriptor from the record-type schema: declared type (absent for
link fields), array marker and denormalized-inverse marker, read through
`this.keys`. -/
structure FieldDef where
  type : Option FieldKind
  isArray : Bool
  denormalizedInverse : Bool
deriving DecidableEq

/-- A record type's schema: field name to descriptor, in declaration order. -/
abbrev Schema := List (String × FieldDef)

/-- The test `fieldType && (fieldType === Buffer ||
fieldType.prototype.constructor === Buffer)`. -/
def isBufferField (t : Option FieldKind) : Bool :=
  match t with
  | some .buffer => true
  | _ => false

/-- helpers.js `toString(buffer)`: Buffer to base64 string.  (Applied by the
codec only to buffers; on any other value the JS original would throw, a case
no well-typed record reaches.) -/
def bufToString : Value → Value
  | .buf bytes => .str (String.mk (b64Encode bytes))
  | v => v

/-- helpers.js `toBuffer(string)`: base64 string to Buffer. -/
def toBuffer : Value → Value
  | .str s => .buf (b64Decode s.toList)
  | v => v

/-- helpers.js `castValue(value)`: buffers become base64 strings, everything
else passes through. -/
def castValue : Value → Value
  | .buf bytes => .str (String.mk (b64Encode bytes))
  | v => v

/-- `record[field].map(toString)` vs `toString(record[field])` in
`inputRecord`, selected by the field's array marker. -/
def castBufferValues (isArr : Bool) (v : Value) : Value :=
  if isArr then
    match v with
    | .arr l => .arr (l.map bufToString)
    | w => w
  else bufToString v

/-- `value.map(toBuffer)` vs `toBuffer(value)` in `outputRecord`. -/
def uncastBufferValues (isArr : Bool) (v : Value) : Value :=
  if isArr then
    match v with
    | .arr l => .arr (l.map toBuffer)
    | w => w
  else toBuffer v

/-- helpers.js `generateId()`: base64 of 15 cryptographically random bytes.
The random bytes are the function's sole input, passed explicitly here since
the embedding is pure. -/
def generateId (randomBytes : List Nat) : String :=
  String.mk (b64Encode randomBytes)

/-- helpers.js `inputRecord(type, record)` for a `type` whose schema is
`fields`.  `primaryKey` is the ORM's primary-key name and `freshId` stands
for the identifier `generateId()` would produce when the record carries no
truthy primary-key value. -/
def inputRecord (primaryKey : String) (fields : Schema) (freshId : String)
    (record : Obj) : Obj :=
  let id := jsGet record primaryKey
  let clone : Obj := objInsert [] idKey (if truthy id then id else .str freshId)
  let clone := record.foldl (fun c e =>
    if e.1 = primaryKey then c else objInsert c e.1 e.2) clone
  fields.foldl (fun c e =>
    if ! hasKey record e.1 then
      objInsert c e.1 (if e.2.isArray then .arr [] else .null)
    else if isBufferField e.2.type && truthy (jsGet record e.1) then
      objInsert c e.1 (castBufferValues e.2.isArray (jsGet record e.1))
    else c) clone

/-- An output record: a JS object a few of whose own properties may have been
made non-enumerable by `Object.defineProperty` (they are still readable by
name, so lookups go through `entries`; `nonEnum` records which keys generic
enumeration must skip). -/
structure ORecord where
  entries : Obj
  nonEnum : List String

/-- helpers.js `outputRecord(type, record)` for a `type` whose schema is
`fields`. -/
def outputRecord (primaryKey : String) (fields : Schema) (record : Obj) :
    ORecord :=
  let clone : ORecord := ⟨objInsert [] primaryKey (jsGet record idKey), []⟩
  record.foldl (fun c e =>
    match alistLookup fields e.1 with
    | none => c
    | some fd =>
      if isBufferField fd.type && truthy e.2 then
        ⟨objInsert c.entries e.1 (uncastBufferValues fd.isArray e.2), c.nonEnum⟩
      else if fd.denormalizedInverse then
        ⟨objInsert c.entries e.1 e.2, e.1 :: c.nonEnum⟩
      else
        ⟨objInsert c.entries e.1 e.2, c.nonEnum⟩) clone

/-! ## Query translator (src/lib/helpers.js generateQuery) -/

/-- Template-literal stringification of an upper range bound
(` ${value[1]} `).  The adapter's range bounds are numbers. -/
def boundKeyString : Value → String
  | .num n => toString n
  | .str s => s
  | .null => "null"
  | .undefined => "undefined"
  | .bool b => cond b "true" "false"
  | _ => ""

/-- `${value[0] - 1}` for a numeric lower range bound. -/
def lowerIndexString : Value → String
  | .num n => toString (n - 1)
  | _ => "NaN"

/-- helpers.js `generateRangeQuery(fields, options)`. -/
def generateRangeQuery (fields : Schema) (options : Value) : Value :=
  .obj ((jsEntries options).foldl (fun range e =>
    match alistLookup fields e.1 with
    | none => range
    | some fd =>
      if fd.isArray then
        let range1 := if nullish (vIndex e.2 0) then range
          else objInsert range (e.1 ++ "." ++ lowerIndexString (vIndex e.2 0))
            (.obj [("$exists", .bool true)])
        if nullish (vIndex e.2 1) then range1
        else objInsert range1 (e.1 ++ "." ++ boundKeyString (vIndex e.2 1))
          (.obj [("$exists", .bool false)])
      else
        let inner := [("$ne", Value.null)]
        let inner := if nullish (vIndex e.2 0) then inner
          else objInsert inner "$gte" (castValue (vIndex e.2 0))
        let inner := if nullish (vIndex e.2 1) then inner
          else objInsert inner "$lte" (castValue (vIndex e.2 1))
        objInsert range e.1 (.obj inner)) [])

/-- helpers.js `applyNotOperator(clause)`: wrap each top-level value of a
compiled clause in `$not`. -/
def applyNotOperator (clause : Value) : Value :=
  .obj (mapValues (jsEntries clause) (fun value _ => .obj [("$not", value)]))

/-- The `match` case of generateQuery:
`mapValues(options.match, value => Array.isArray(value) ?
\x7b $in: value.map(castValue) \x7d : castValue(value))`. -/
def matchClause (m : Value) : Value :=
  .obj (mapValues (jsEntries m) (fun value _ =>
    match value with
    | .arr l => .obj [("$in", .arr (l.map castValue))]
    | v => castValue v))

/-- The `exists` case of generateQuery: fields absent from the schema map to
undefined (`return void 0`), array fields compare against the empty array,
scalar fields against null. -/
def existsClause (fields : Schema) (ex : Value) : Value :=
  .obj (mapValues (jsEntries ex) (fun value key =>
    match alistLookup fields key with
    | none => .undefined
    | some fd =>
      if fd.isArray then
        if truthy value then .obj [("$ne", .arr [])] else .arr []
      else
        if truthy value then .obj [("$ne", .null)] else .null))

theorem sizeOf_map_snd_le (es : List (String × Value)) :
    sizeOf (es.map Prod.snd) ≤ sizeOf es := by
  induction es with
  | nil => simp
  | cons e rest ih =>
    obtain ⟨k, v⟩ := e
    simp only [List.map_cons, List.cons.sizeOf_spec, Prod.mk.sizeOf_spec]
    omega

theorem arrEntries_map_snd (i : Nat) (l : List Value) :
    (arrEntries i l).map Prod.snd = l := by
  induction l generalizing i with
  | nil => rfl
  | cons v rest ih => simp [arrEntries, ih]

theorem sizeOf_jsEntries_snd (v : Value) :
    sizeOf ((jsEntries v).map Prod.snd) ≤ sizeOf v := by
  cases v with
  | obj es =>
    have h := sizeOf_map_snd_le es
    simp only [jsEntries, Value.obj.sizeOf_spec]
    omega
  | arr l =>
    rw [jsEntries, arrEntries_map_snd]
    simp only [Value.arr.sizeOf_spec]
    omega
  | null => simp [jsEntries]
  | undefined => simp [jsEntries]
  | bool b => simp [jsEntries]
  | num n => simp [jsEntries]
  | str s => simp [jsEntries]
  | buf bytes => simp [jsEntries]

mutual

/-- helpers.js `generateQuery(fields, options, not)`: compile a fortune
query-options object into the store's native filter.  The `for key in
options` switch is `gqLoop`; the `mapValues` recursion of the `and`/`or`
branch is `gqMapPairs`. -/
def generateQuery (fields : Schema) (options : Value) (neg : Bool) : Value :=
  gqLoop fields (jsEntries options) [] neg
termination_by 2 * sizeOf options + 1
decreasing_by
  all_goals try simp_wf
  have h := sizeOf_jsEntries_snd options
  omega

/-- The `for key in options` loop of generateQuery, carrying the collected
`$and` clause list.  On the first `and`/`or`/`not` key the loop returns
early, abandoning clauses collected so far; at the end of the loop the
clauses (negated per key via `applyNotOperator` when the `not` flag is set)
are combined: zero clauses give the empty filter, one is returned unwrapped,
more are wrapped under `$and`. -/
def gqLoop (fields : Schema) :
    List (String × Value) → List Value → Bool → Value
  | [], acc, neg =>
    let acc2 := if neg then acc.map applyNotOperator else acc
    match acc2 with
    | [] => .obj []
    | [clause] => clause
    | clauses => .obj [("$and", .arr clauses)]
  | e :: rest, acc, neg =>
    match e.1 with
    | "and" | "or" =>
      .obj [("$" ++ e.1, .obj (gqMapPairs fields (jsEntries e.2)))]
    | "not" => generateQuery fields e.2 true
    | "range" =>
      gqLoop fields rest (acc ++ [generateRangeQuery fields e.2]) neg
    | "match" => gqLoop fields rest (acc ++ [matchClause e.2]) neg
    | "exists" => gqLoop fields rest (acc ++ [existsClause fields e.2]) neg
    | _ => gqLoop fields rest acc neg
termination_by kvs acc neg => 2 * sizeOf (kvs.map Prod.snd)
decreasing_by
  all_goals try simp_wf
  all_goals try simp only [List.map_cons, List.cons.sizeOf_spec]
  all_goals first
    | (have h := sizeOf_jsEntries_snd e.2; omega)
    | omega

/-- The `mapValues(options[key], value => generateQuery(fields, value))` of
the `and`/`or` branch, as a map over entries (object keys are unique, so
`mapValues` is a plain map; see `mapValues_eq_map`).  The recursion does not
propagate the negate flag. -/
def gqMapPairs (fields : Schema) :
    List (String × Value) → List (String × Value)
  | [] => []
  | e :: rest => (e.1, generateQuery fields e.2 false) :: gqMapPairs fields rest
termination_by es => 2 * sizeOf (es.map Prod.snd)
decreasing_by
  all_goals try simp_wf
  all_goals try simp only [List.map_cons, List.cons.sizeOf_spec]
  all_goals omega

end


/-! ## Adapter operations (src/unnamed/part_000) -/

/-- An error reported by the embedded store, as inspected by `create`: the
store's `errorType` tag plus an opaque message. -/
structure StoreError where
  errorType : Option String
  message : String
deriving DecidableEq

/-- Errors surfaced by the adapter: the ORM's ConflictError or the raw store
error passed through unmodified. -/
inductive AdapterError where
  | conflict (message : String)
  | store (e : StoreError)
deriving DecidableEq

/-- The adapter's `create(type, records)`: encode every record with
`inputRecord` (`freshIds` supplies the identifiers `generateId` would draw
for records without one), insert the batch (`insert` is the store's response
to the encoded batch), map a `uniqueViolated` store error to
`ConflictError('Duplicate key.')`, reject with any other error raw, and
decode the inserted records with `outputRecord` on success. -/
def create (primaryKey : String) (fields : Schema) (records : List Obj)
    (freshIds : List String)
    (insert : List Obj → Except StoreError (List Obj)) :
    Except AdapterError (List ORecord) :=
  match insert ((records.zip freshIds).map
      (fun p => inputRecord primaryKey fields p.2 p.1)) with
  | .error e =>
    .error (if e.errorType = some "uniqueViolated"
      then .conflict "Duplicate key." else .store e)
  | .ok result => .ok (result.map (outputRecord primaryKey fields))

/-- One item of the adapter's `update(type, updates)`: the target primary-key
value plus the optional `replace`/`push`/`pull`/`operate` objects (`none`
models an absent key). -/
structure UpdateItem where
  id : Value
  replace : Option Obj
  push : Option Obj
  pull : Option Obj
  operate : Option Obj

/-- JS `Object.assign(modifiers, update.operate)`: merge `o` into `m`,
overwriting on key collision. -/
def objAssign (m : Obj) (o : Obj) : Obj :=
  o.foldl (fun c e => objInsert c e.1 e.2) m

/-- The modifier object `update` builds for one item: `$set` from `replace`,
`$push` from `push` (sequences append element-wise via `$each`), `$pull`
from `pull` (sequences remove members via `$in`), then the custom `operate`
operators merged on top with precedence. -/
def buildModifiers (u : UpdateItem) : Obj :=
  let m : Obj := []
  let m := match u.replace with
    | some r => objInsert m "$set" (.obj r)
    | none => m
  let m := match u.push with
    | some p => objInsert m "$push" (.obj (mapValues p (fun value _ =>
        match value with
        | .arr l => .obj [("$each", .arr l)]
        | v => v)))
    | none => m
  let m := match u.pull with
    | some p => objInsert m "$pull" (.obj (mapValues p (fun value _ =>
        match value with
        | .arr l => .obj [("$in", .arr l)]
        | v => v)))
    | none => m
  match u.operate with
  | some o => objAssign m o
  | none => m

/-- The per-item body of `update`: an empty modifier object short-circuits to
an affected count of 0 without touching the store; otherwise one native
update call is issued (`storeUpdate` gives the store's affected count for a
target id and modifier object). -/
def updateItemCount (storeUpdate : Value → Obj → Nat) (u : UpdateItem) : Nat :=
  let modifiers := buildModifiers u
  if modifiers.isEmpty then 0 else storeUpdate u.id modifiers

/-- The number of native update calls `update` issues for one item. -/
def updateItemCalls (u : UpdateItem) : Nat :=
  if (buildModifiers u).isEmpty then 0 else 1

/-- The adapter's `update(type, updates)`: per-item affected counts summed by
`reduce((accumulator, number) => accumulator + number, 0)`. -/
def update (storeUpdate : Value → Obj → Nat) (updates : List UpdateItem) :
    Nat :=
  (updates.map (updateItemCount storeUpdate)).foldl
    (fun accumulator number => accumulator + number) 0


/-! ## Record codec characterization -/

theorem hasKey_cons {α : Type} (e : String × α) (rest : List (String × α))
    (key : String) :
    hasKey (e :: rest) key = if e.1 = key then true else hasKey rest key := by
  by_cases h : e.1 = key <;> simp [hasKey, alistLookup, h]

theorem inputFold2 (pk : String) (rec : Obj) (hR : (keysOf rec).Nodup) :
    ∀ (c : Obj) (key : String),
      alistLookup (rec.foldl (fun c e =>
          if e.1 = pk then c else objInsert c e.1 e.2) c) key =
        if key = pk then alistLookup c key
        else if hasKey rec key then alistLookup rec key
        else alistLookup c key := by
  induction rec with
  | nil =>
    intro c key
    by_cases hpk : key = pk <;> simp [hasKey, alistLookup, hpk]
  | cons e rest ih =>
    intro c key
    rw [show keysOf (e :: rest) = e.1 :: keysOf rest from rfl,
      List.nodup_cons] at hR
    simp only [List.foldl_cons]
    rw [ih hR.2]
    by_cases hpk : key = pk
    · subst hpk
      simp only [if_pos rfl]
      by_cases he : e.1 = key
      · simp [he]
      · have hne : ¬ key = e.1 := fun h => he h.symm
        simp [he, alistLookup_objInsert, hne]
    · simp only [if_neg hpk]
      by_cases hke : key = e.1
      · have hf : hasKey rest e.1 = false := by
          by_cases h : hasKey rest e.1
          · exact absurd ((hasKey_iff_mem rest e.1).mp h) hR.1
          · simpa using h
        have hpk2 : ¬ e.1 = pk := fun h => hpk (by rw [hke, h])
        rw [hke]
        rw [if_neg (by simp [hf]), if_neg hpk2, alistLookup_objInsert,
          if_pos rfl]
        have hcons : hasKey (e :: rest) e.1 = true := by
          rw [hasKey_cons]; simp
        rw [if_pos hcons]
        simp [alistLookup]
      · have hne : ¬ e.1 = key := fun h => hke h.symm
        by_cases hr : hasKey rest key
        · have hcons : hasKey (e :: rest) key = true := by
            rw [hasKey_cons, if_neg hne]; exact hr
          rw [if_pos hr, if_pos hcons]
          simp [alistLookup, hne]
        · have hrf : hasKey rest key = false := by simpa using hr
          have hcons : hasKey (e :: rest) key = false := by
            rw [hasKey_cons, if_neg hne]; exact hrf
          rw [if_neg (show ¬ (hasKey rest key = true) by simp [hrf])]
          rw [if_neg (show ¬ (hasKey (e :: rest) key = true) by simp [hcons])]
          by_cases he : e.1 = pk
          · simp [he]
          · simp [he, alistLookup_objInsert, fun h : key = e.1 => hke h]


theorem inputFold3 (rec : Obj) (fields : Schema)
    (hF : (keysOf fields).Nodup) :
    ∀ (c : Obj) (key : String),
      alistLookup (fields.foldl (fun c e =>
          if ! hasKey rec e.1 then
            objInsert c e.1 (if e.2.isArray then .arr [] else .null)
          else if isBufferField e.2.type && truthy (jsGet rec e.1) then
            objInsert c e.1 (castBufferValues e.2.isArray (jsGet rec e.1))
          else c) c) key =
        match alistLookup fields key with
        | none => alistLookup c key
        | some fd =>
          if ! hasKey rec key then
            some (if fd.isArray then .arr [] else .null)
          else if isBufferField fd.type && truthy (jsGet rec key) then
            some (castBufferValues fd.isArray (jsGet rec key))
          else alistLookup c key := by
  induction fields with
  | nil =>
    intro c key
    simp [alistLookup]
  | cons e rest ih =>
    intro c key
    rw [show keysOf (e :: rest) = e.1 :: keysOf rest from rfl,
      List.nodup_cons] at hF
    simp only [List.foldl_cons]
    rw [ih hF.2]
    by_cases hke : e.1 = key
    · have hf : alistLookup rest key = none := by
        rw [← hasKey_false_iff]
        by_cases h : hasKey rest key
        · exact absurd (hke ▸ (hasKey_iff_mem rest key).mp h) hF.1
        · simpa using h
      rw [hf]
      rw [show alistLookup (e :: rest) key = some e.2 by
        simp [alistLookup, hke]]
      subst hke
      by_cases h1 : hasKey rec e.1
      · rw [show (! hasKey rec e.1) = false by simp [h1]]
        simp only [Bool.false_eq_true, if_false]
        by_cases h2 : isBufferField e.2.type && truthy (jsGet rec e.1)
        · simp [h2, alistLookup_objInsert]
        · have h2f : (isBufferField e.2.type && truthy (jsGet rec e.1))
              = false := by simpa using h2
          simp [h2f]
      · have h1f : hasKey rec e.1 = false := by simpa using h1
        rw [show (! hasKey rec e.1) = true by simp [h1f]]
        simp [alistLookup_objInsert]
    · rw [show alistLookup (e :: rest) key
          = alistLookup rest key by simp [alistLookup, hke]]
      have hstep : ∀ w : Value,
          alistLookup (objInsert c e.1 w) key = alistLookup c key := by
        intro w
        rw [alistLookup_objInsert,
          if_neg (show ¬ key = e.1 from fun h => hke h.symm)]
      cases halist : alistLookup rest key with
      | none =>
        by_cases h1 : hasKey rec e.1
        · rw [show (! hasKey rec e.1) = false by simp [h1]]
          simp only [Bool.false_eq_true, if_false]
          by_cases h2 : isBufferField e.2.type && truthy (jsGet rec e.1)
          · simp [h2, hstep]
          · have h2f : (isBufferField e.2.type && truthy (jsGet rec e.1))
                = false := by simpa using h2
            simp [h2f]
        · have h1f : hasKey rec e.1 = false := by simpa using h1
          rw [show (! hasKey rec e.1) = true by simp [h1f]]
          simp [hstep]
      | some fd =>
        by_cases h1 : hasKey rec e.1
        · rw [show (! hasKey rec e.1) = false by simp [h1]]
          simp only [Bool.false_eq_true, if_false]
          by_cases h2 : isBufferField e.2.type && truthy (jsGet rec e.1)
          · simp [h2, hstep]
          · have h2f : (isBufferField e.2.type && truthy (jsGet rec e.1))
                = false := by simpa using h2
            simp [h2f]
        · have h1f : hasKey rec e.1 = false := by simpa using h1
          rw [show (! hasKey rec e.1) = true by simp [h1f]]
          simp [hstep]


theorem outputFold (fields : Schema) (rec : Obj) (hR : (keysOf rec).Nodup) :
    ∀ (c : ORecord) (key : String),
      alistLookup (rec.foldl (fun c e =>
          match alistLookup fields e.1 with
          | none => c
          | some fd =>
            if isBufferField fd.type && truthy e.2 then
              ⟨objInsert c.entries e.1 (uncastBufferValues fd.isArray e.2),
                c.nonEnum⟩
            else if fd.denormalizedInverse then
              ⟨objInsert c.entries e.1 e.2, e.1 :: c.nonEnum⟩
            else
              ⟨objInsert c.entries e.1 e.2, c.nonEnum⟩) c).entries key =
        match alistLookup rec key, alistLookup fields key with
        | some v, some fd =>
          some (if isBufferField fd.type && truthy v then
            uncastBufferValues fd.isArray v else v)
        | _, _ => alistLookup c.entries key := by
  induction rec with
  | nil =>
    intro c key
    simp [alistLookup]
  | cons e rest ih =>
    intro c key
    rw [show keysOf (e :: rest) = e.1 :: keysOf rest from rfl,
      List.nodup_cons] at hR
    simp only [List.foldl_cons]
    rw [ih hR.2]
    by_cases hke : e.1 = key
    · have hf : alistLookup rest key = none := by
        rw [← hasKey_false_iff]
        by_cases h : hasKey rest key
        · exact absurd (hke ▸ (hasKey_iff_mem rest key).mp h) hR.1
        · simpa using h
      rw [hf]
      rw [show alistLookup (e :: rest) key = some e.2 by
        simp [alistLookup, hke]]
      subst hke
      cases hfd : alistLookup fields e.1 with
      | none => simp
      | some fd =>
        by_cases h2 : isBufferField fd.type && truthy e.2
        · simp [hfd, h2, alistLookup_objInsert]
        · have h2f : (isBufferField fd.type && truthy e.2) = false := by
            simpa using h2
          by_cases h3 : fd.denormalizedInverse <;>
            simp [hfd, h2f, h3, alistLookup_objInsert]
    · rw [show alistLookup (e :: rest) key
          = alistLookup rest key by simp [alistLookup, hke]]
      have hne : ¬ key = e.1 := fun h => hke h.symm
      cases hfd : alistLookup fields e.1 with
      | none =>
        cases halist : alistLookup rest key <;> simp [hfd]
      | some fd =>
        have hstep : ∀ w : Value,
            alistLookup (objInsert c.entries e.1 w) key
              = alistLookup c.entries key := by
          intro w
          rw [alistLookup_objInsert, if_neg hne]
        by_cases h2 : isBufferField fd.type && truthy e.2
        · cases halist : alistLookup rest key <;>
            simp [hfd, h2, hstep]
        · have h2f : (isBufferField fd.type && truthy e.2) = false := by
            simpa using h2
          by_cases h3 : fd.denormalizedInverse <;>
            cases halist : alistLookup rest key <;>
              simp [hfd, h2f, h3, hstep]

theorem foldl_nodup_preserve {β : Type} (step : Obj → β → Obj)
    (hstep : ∀ c e, (keysOf c).Nodup → (keysOf (step c e)).Nodup) :
    ∀ (l : List β) (c : Obj), (keysOf c).Nodup →
      (keysOf (l.foldl step c)).Nodup
  | [], c, hc => hc
  | e :: rest, c, hc =>
    foldl_nodup_preserve step hstep rest (step c e) (hstep c e hc)

theorem inputRecord_nodup (pk : String) (fields : Schema) (fid : String)
    (rec : Obj) : (keysOf (inputRecord pk fields fid rec)).Nodup := by
  rw [inputRecord]
  apply foldl_nodup_preserve
  · intro c e hc
    by_cases h1 : hasKey rec e.1
    · rw [show (! hasKey rec e.1) = false by simp [h1]]
      simp only [Bool.false_eq_true, if_false]
      by_cases h2 : isBufferField e.2.type && truthy (jsGet rec e.1)
      · simp only [h2, if_true]
        exact nodup_objInsert _ _ _ hc
      · have h2f : (isBufferField e.2.type && truthy (jsGet rec e.1))
            = false := by simpa using h2
        simp only [h2f, Bool.false_eq_true, if_false]
        exact hc
    · have h1f : hasKey rec e.1 = false := by simpa using h1
      rw [show (! hasKey rec e.1) = true by simp [h1f]]
      simp only [if_true]
      exact nodup_objInsert _ _ _ hc
  · apply foldl_nodup_preserve
    · intro c e hc
      by_cases h : e.1 = pk
      · simp only [h, if_pos rfl]
        exact hc
      · simp only [if_neg h]
        exact nodup_objInsert _ _ _ hc
    · exact nodup_objInsert _ _ _ (by simp [keysOf])


/-- What `inputRecord`'s first two passes (the `_id` assignment and the
copy of every non-primary-key input field) leave at `key`. -/
def inputBase (pk : String) (fid : String) (rec : Obj) (key : String) :
    Option Value :=
  if key = pk then
    (if idKey = key then
      some (if truthy (jsGet rec pk) then jsGet rec pk else .str fid)
    else none)
  else if hasKey rec key then alistLookup rec key
  else
    (if idKey = key then
      some (if truthy (jsGet rec pk) then jsGet rec pk else .str fid)
    else none)

theorem inputRecord_alistLookup (pk : String) (fields : Schema)
    (fid : String) (rec : Obj) (key : String) (hR : (keysOf rec).Nodup)
    (hF : (keysOf fields).Nodup) :
    alistLookup (inputRecord pk fields fid rec) key =
      match alistLookup fields key with
      | none => inputBase pk fid rec key
      | some fd =>
        if ! hasKey rec key then
          some (if fd.isArray then .arr [] else .null)
        else if isBufferField fd.type && truthy (jsGet rec key) then
          some (castBufferValues fd.isArray (jsGet rec key))
        else inputBase pk fid rec key := by
  simp only [inputRecord]
  rw [inputFold3 rec fields hF]
  rw [inputFold2 pk rec hR]
  have hbase : alistLookup
      (objInsert [] idKey
        (if truthy (jsGet rec pk) then jsGet rec pk else .str fid)) key =
      (if idKey = key then
        some (if truthy (jsGet rec pk) then jsGet rec pk else .str fid)
      else none) := by
    simp [objInsert, alistLookup]
  rw [hbase]
  rfl

theorem outputRecord_alistLookup (pk : String) (fields : Schema) (rec : Obj)
    (key : String) (hR : (keysOf rec).Nodup) :
    alistLookup (outputRecord pk fields rec).entries key =
      match alistLookup rec key, alistLookup fields key with
      | some v, some fd =>
        some (if isBufferField fd.type && truthy v then
          uncastBufferValues fd.isArray v else v)
      | _, _ => if pk = key then some (jsGet rec idKey) else none := by
  simp only [outputRecord]
  rw [outputFold fields rec hR]
  have hbase : alistLookup
      (objInsert ([] : Obj) pk (jsGet rec idKey)) key =
      (if pk = key then some (jsGet rec idKey) else none) := by
    simp [objInsert, alistLookup]
  rw [show (⟨objInsert [] pk (jsGet rec idKey), []⟩ : ORecord).entries
    = objInsert [] pk (jsGet rec idKey) from rfl, hbase]


theorem alistLookup_mem {α : Type} (o : List (String × α)) (k : String)
    (v : α) (h : alistLookup o k = some v) : (k, v) ∈ o := by
  induction o with
  | nil => simp [alistLookup] at h
  | cons e rest ih =>
    by_cases he : e.1 = k
    · rw [alistLookup, if_pos he] at h
      obtain ⟨k2, v2⟩ := e
      obtain rfl : v2 = v := by injection h
      obtain rfl : k2 = k := he
      simp
    · rw [alistLookup, if_neg he] at h
      exact List.mem_cons_of_mem e (ih h)

theorem alistLookup_eq_some_jsGet (o : Obj) (k : String)
    (h : hasKey o k = true) : alistLookup o k = some (jsGet o k) := by
  cases h2 : alistLookup o k with
  | none => rw [hasKey, h2] at h; simp at h
  | some v => simp [jsGet, h2]

/-! ## Claim theorems -/

/-- C2: for a record type whose schema declares no buffer-typed fields and a
record with a truthy primary-key value (and no collision with the store's
internal `_id` key, which no ORM-side record or schema has),
`outputRecord(type, inputRecord(type, record))` reproduces the record's
declared-schema fields exactly: the primary key is preserved, fields present
in the input keep their values, and fields absent from the input come back
as the empty array (array-typed) or null (otherwise). -/
theorem C2_roundtrip_without_buffers (pk fid : String) (fields : Schema)
    (rec : Obj)
    (hnb : ∀ e ∈ fields, isBufferField e.2.type = false)
    (hR : (keysOf rec).Nodup) (hF : (keysOf fields).Nodup)
    (hpk : truthy (jsGet rec pk) = true)
    (hid : hasKey rec idKey = false)
    (hfid : alistLookup fields idKey = none)
    (hfpk : alistLookup fields pk = none) :
    alistLookup
        (outputRecord pk fields (inputRecord pk fields fid rec)).entries pk
      = some (jsGet rec pk) ∧
    ∀ f fd, alistLookup fields f = some fd →
      alistLookup
          (outputRecord pk fields (inputRecord pk fields fid rec)).entries f
        = some (if hasKey rec f then jsGet rec f
            else if fd.isArray then .arr [] else .null) := by
  have hpkid : ¬ idKey = pk := by
    intro h
    rw [← h] at hpk
    rw [show jsGet rec idKey = .undefined by
      simp [jsGet, (hasKey_false_iff rec idKey).mp hid]] at hpk
    simp [truthy] at hpk
  have hmidnd := inputRecord_nodup pk fields fid rec
  constructor
  · rw [outputRecord_alistLookup pk fields _ pk hmidnd]
    have hmidid : alistLookup (inputRecord pk fields fid rec) idKey
        = some (jsGet rec pk) := by
      rw [inputRecord_alistLookup pk fields fid rec idKey hR hF, hfid]
      simp only [inputBase]
      rw [if_neg hpkid]
      rw [if_neg (show ¬ (hasKey rec idKey = true) by simp [hid])]
      simp [hpk]
    cases hmid : alistLookup (inputRecord pk fields fid rec) pk with
    | none => simp [hfpk, jsGet, hmidid]
    | some v => simp [hfpk, jsGet, hmidid]
  · intro f fd hfd
    have hfne : ¬ f = pk := by
      intro h; rw [h, hfpk] at hfd; exact Option.noConfusion hfd
    have hnbf : isBufferField fd.type = false :=
      hnb (f, fd) (alistLookup_mem fields f fd hfd)
    have hmidf : alistLookup (inputRecord pk fields fid rec) f =
        some (if hasKey rec f then jsGet rec f
          else if fd.isArray then .arr [] else .null) := by
      rw [inputRecord_alistLookup pk fields fid rec f hR hF, hfd]
      by_cases h1 : hasKey rec f
      · rw [show (! hasKey rec f) = false by simp [h1]]
        simp only [Bool.false_eq_true, if_false]
        rw [show (isBufferField fd.type && truthy (jsGet rec f)) = false by
          simp [hnbf]]
        simp only [Bool.false_eq_true, if_false, inputBase]
        rw [if_neg hfne, if_pos h1]
        rw [alistLookup_eq_some_jsGet rec f h1]
        simp [h1]
      · have h1f : hasKey rec f = false := by simpa using h1
        rw [show (! hasKey rec f) = true by simp [h1f]]
        simp [h1f]
    rw [outputRecord_alistLookup pk fields _ f hmidnd, hmidf, hfd]
    simp [hnbf]


/-- Concrete schema fixture: a scalar string field and an array field. -/
def fieldsW : Schema :=
  [("name", ⟨some .plain, false, false⟩), ("tags", ⟨some .plain, true, false⟩)]

/-- Concrete record fixture. -/
def recW : Obj := [("id", .str "1"), ("name", .str "n")]

/-- Witness for C2: the round trip at a concrete schema and record keeps the
primary key and the present field, and defaults the absent array field. -/
theorem C2_roundtrip_without_buffers_witness :
    alistLookup
        (outputRecord "id" fieldsW (inputRecord "id" fieldsW "g" recW)).entries
        "id" = some (.str "1") ∧
    alistLookup
        (outputRecord "id" fieldsW (inputRecord "id" fieldsW "g" recW)).entries
        "name" = some (.str "n") ∧
    alistLookup
        (outputRecord "id" fieldsW (inputRecord "id" fieldsW "g" recW)).entries
        "tags" = some (.arr []) := by
  have h := C2_roundtrip_without_buffers "id" "g" fieldsW recW
    (by decide) (by decide) (by decide) (by decide) (by decide)
    (by decide) (by decide)
  refine ⟨h.1, ?_, ?_⟩
  · exact h.2 "name" ⟨some .plain, false, false⟩ (by decide)
  · exact h.2 "tags" ⟨some .plain, true, false⟩ (by decide)

theorem inputRecord_lookup_of_field (pk fid : String) (fields : Schema)
    (rec : Obj) (key : String) (fd : FieldDef)
    (hR : (keysOf rec).Nodup) (hF : (keysOf fields).Nodup)
    (hfd : alistLookup fields key = some fd) :
    alistLookup (inputRecord pk fields fid rec) key =
      if ! hasKey rec key then
        some (if fd.isArray then .arr [] else .null)
      else if isBufferField fd.type && truthy (jsGet rec key) then
        some (castBufferValues fd.isArray (jsGet rec key))
      else inputBase pk fid rec key := by
  rw [inputRecord_alistLookup pk fields fid rec key hR hF, hfd]

theorem outputRecord_lookup_of_present (pk : String) (fields : Schema)
    (rec : Obj) (key : String) (v : Value) (fd : FieldDef)
    (hR : (keysOf rec).Nodup)
    (hrec : alistLookup rec key = some v)
    (hfd : alistLookup fields key = some fd) :
    alistLookup (outputRecord pk fields rec).entries key =
      some (if isBufferField fd.type && truthy v then
        uncastBufferValues fd.isArray v else v) := by
  rw [outputRecord_alistLookup pk fields rec key hR, hrec, hfd]

theorem b64Encode_ne_nil (l : List Nat) (h : l ≠ []) : b64Encode l ≠ [] := by
  intro h2
  have hlen := b64Encode_length l
  rw [h2] at hlen
  have : l.length ≠ 0 := fun h3 => h (List.length_eq_zero.mp h3)
  simp at hlen
  omega

/-- C6: a present buffer value survives `inputRecord` then `outputRecord`
bit-for-bit, both for a scalar buffer field (non-empty, since an empty
buffer encodes to the falsy empty string) and for an array-of-buffers field
(element-wise through the base64 text encoding and back). -/
theorem C6_buffer_roundtrip (pk fid f : String) (fields : Schema) (rec : Obj)
    (fd : FieldDef)
    (hR : (keysOf rec).Nodup) (hF : (keysOf fields).Nodup)
    (hfd : alistLookup fields f = some fd)
    (hbuf : fd.type = some FieldKind.buffer) :
    (∀ bytes : List Nat, fd.isArray = false →
      alistLookup rec f = some (.buf bytes) → bytes ≠ [] →
      (∀ x ∈ bytes, x < 256) →
      alistLookup
          (outputRecord pk fields (inputRecord pk fields fid rec)).entries f
        = some (.buf bytes)) ∧
    (∀ bl : List (List Nat), fd.isArray = true →
      alistLookup rec f = some (.arr (bl.map Value.buf)) →
      (∀ b ∈ bl, ∀ x ∈ b, x < 256) →
      alistLookup
          (outputRecord pk fields (inputRecord pk fields fid rec)).entries f
        = some (.arr (bl.map Value.buf))) := by
  have hmidnd := inputRecord_nodup pk fields fid rec
  constructor
  · intro bytes hscalar hval hne hbytes
    have hhk : hasKey rec f = true := by simp [hasKey, hval]
    have hjs : jsGet rec f = .buf bytes := by simp [jsGet, hval]
    have hmidf : alistLookup (inputRecord pk fields fid rec) f =
        some (.str (String.mk (b64Encode bytes))) := by
      rw [inputRecord_lookup_of_field pk fid fields rec f fd hR hF hfd]
      rw [show (! hasKey rec f) = false by simp [hhk]]
      rw [show (isBufferField fd.type && truthy (jsGet rec f)) = true by
        simp [isBufferField, hbuf, hjs, truthy]]
      simp [castBufferValues, hscalar, hjs, bufToString]
    rw [outputRecord_lookup_of_present pk fields _ f _ fd hmidnd hmidf hfd]
    have htr : truthy (.str (String.mk (b64Encode bytes))) = true := by
      simp [truthy]
      intro h2
      exact b64Encode_ne_nil bytes hne (by
        have := congrArg String.toList h2
        simpa using this)
    rw [show (isBufferField fd.type
        && truthy (Value.str (String.mk (b64Encode bytes)))) = true by
      simp [isBufferField, hbuf, htr]]
    simp only [if_true, uncastBufferValues, hscalar, Bool.false_eq_true,
      if_false, toBuffer]
    rw [show (String.mk (b64Encode bytes)).toList = b64Encode bytes from rfl]
    rw [b64_roundtrip bytes hbytes]
  · intro bl harr hval hbytes
    have hhk : hasKey rec f = true := by simp [hasKey, hval]
    have hjs : jsGet rec f = .arr (bl.map Value.buf) := by simp [jsGet, hval]
    have hmidf : alistLookup (inputRecord pk fields fid rec) f =
        some (.arr (bl.map (fun b =>
          Value.str (String.mk (b64Encode b))))) := by
      rw [inputRecord_lookup_of_field pk fid fields rec f fd hR hF hfd]
      rw [show (! hasKey rec f) = false by simp [hhk]]
      rw [show (isBufferField fd.type && truthy (jsGet rec f)) = true by
        simp [isBufferField, hbuf, hjs, truthy]]
      simp [castBufferValues, harr, hjs, bufToString, Function.comp]
    rw [outputRecord_lookup_of_present pk fields _ f _ fd hmidnd hmidf hfd]
    rw [show (isBufferField fd.type && truthy (Value.arr (bl.map (fun b =>
        Value.str (String.mk (b64Encode b)))))) = true by
      simp [isBufferField, hbuf, truthy]]
    simp only [if_true, uncastBufferValues, harr]
    congr 1
    congr 1
    rw [List.map_map]
    apply List.map_congr_left
    intro b hb
    simp only [Function.comp, toBuffer]
    rw [show (String.mk (b64Encode b)).toList = b64Encode b from rfl]
    rw [b64_roundtrip b (hbytes b hb)]


/-! ## Query translator characterization -/

/-- The clauses generateQuery's loop collects at one level, in key order
(only `range`, `match` and `exists` keys contribute). -/
def collectClauses (fields : Schema) : List (String × Value) → List Value
  | [] => []
  | e :: rest =>
    match e.1 with
    | "range" => generateRangeQuery fields e.2 :: collectClauses fields rest
    | "match" => matchClause e.2 :: collectClauses fields rest
    | "exists" => existsClause fields e.2 :: collectClauses fields rest
    | _ => collectClauses fields rest

/-- The conjunction shape rule: zero clauses give the empty filter, one is
returned unwrapped, two or more are wrapped under `$and`. -/
def combineClauses : List Value → Value
  | [] => .obj []
  | [clause] => clause
  | clauses => .obj [("$and", .arr clauses)]

/-- Does an options key list contain a boolean-combinator key
(`and`/`or`/`not`), at which the loop would return early? -/
def hasCombinatorKey : List (String × Value) → Bool
  | [] => false
  | e :: rest =>
    match e.1 with
    | "and" | "or" | "not" => true
    | _ => hasCombinatorKey rest

/-- The first key of an options object that generateQuery's switch
recognizes, if any. -/
def firstRecognizedKey : List (String × Value) → Option String
  | [] => none
  | e :: rest =>
    match e.1 with
    | "and" | "or" | "not" | "range" | "match" | "exists" => some e.1
    | _ => firstRecognizedKey rest

theorem gqLoop_cons_and (fields : Schema) (e : String × Value)
    (rest : List (String × Value)) (acc : List Value) (neg : Bool)
    (h : e.1 = "and") :
    gqLoop fields (e :: rest) acc neg =
      .obj [("$" ++ e.1, .obj (gqMapPairs fields (jsEntries e.2)))] := by
  simp [gqLoop, h]

theorem gqLoop_cons_or (fields : Schema) (e : String × Value)
    (rest : List (String × Value)) (acc : List Value) (neg : Bool)
    (h : e.1 = "or") :
    gqLoop fields (e :: rest) acc neg =
      .obj [("$" ++ e.1, .obj (gqMapPairs fields (jsEntries e.2)))] := by
  simp [gqLoop, h]

theorem gqLoop_cons_not (fields : Schema) (e : String × Value)
    (rest : List (String × Value)) (acc : List Value) (neg : Bool)
    (h : e.1 = "not") :
    gqLoop fields (e :: rest) acc neg = generateQuery fields e.2 true := by
  simp [gqLoop, h]

theorem gqLoop_cons_range (fields : Schema) (e : String × Value)
    (rest : List (String × Value)) (acc : List Value) (neg : Bool)
    (h : e.1 = "range") :
    gqLoop fields (e :: rest) acc neg =
      gqLoop fields rest (acc ++ [generateRangeQuery fields e.2]) neg := by
  simp [gqLoop, h]

theorem gqLoop_cons_match (fields : Schema) (e : String × Value)
    (rest : List (String × Value)) (acc : List Value) (neg : Bool)
    (h : e.1 = "match") :
    gqLoop fields (e :: rest) acc neg =
      gqLoop fields rest (acc ++ [matchClause e.2]) neg := by
  simp [gqLoop, h]

theorem gqLoop_cons_exists (fields : Schema) (e : String × Value)
    (rest : List (String × Value)) (acc : List Value) (neg : Bool)
    (h : e.1 = "exists") :
    gqLoop fields (e :: rest) acc neg =
      gqLoop fields rest (acc ++ [existsClause fields e.2]) neg := by
  simp [gqLoop, h]

theorem gqLoop_cons_other (fields : Schema) (e : String × Value)
    (rest : List (String × Value)) (acc : List Value) (neg : Bool)
    (h1 : ¬ e.1 = "and") (h2 : ¬ e.1 = "or") (h3 : ¬ e.1 = "not")
    (h4 : ¬ e.1 = "range") (h5 : ¬ e.1 = "match") (h6 : ¬ e.1 = "exists") :
    gqLoop fields (e :: rest) acc neg = gqLoop fields rest acc neg := by
  simp [gqLoop, h1, h2, h3, h4, h5, h6]

theorem gqLoop_nil (fields : Schema) (acc : List Value) (neg : Bool) :
    gqLoop fields [] acc neg =
      combineClauses (if neg then acc.map applyNotOperator else acc) := by
  rw [gqLoop.eq_1]
  cases neg <;> rcases acc with _ | ⟨c, _ | ⟨c2, cs⟩⟩ <;> rfl

/-- When the loop hits no combinator key, it collects the
`range`/`match`/`exists` clauses in key order, negates them per key when the
`not` flag is set, and applies the conjunction shape rule. -/
theorem gqLoop_no_comb (fields : Schema) :
    ∀ (kvs : List (String × Value)) (acc : List Value) (neg : Bool),
      hasCombinatorKey kvs = false →
      gqLoop fields kvs acc neg =
        combineClauses (if neg then
          (acc ++ collectClauses fields kvs).map applyNotOperator
        else acc ++ collectClauses fields kvs) := by
  intro kvs
  induction kvs with
  | nil =>
    intro acc neg _
    rw [gqLoop_nil]
    simp [collectClauses]
  | cons e rest ih =>
    intro acc neg h
    have hand : ¬ e.1 = "and" := fun hh => by
      simp [hasCombinatorKey, hh] at h
    have hor : ¬ e.1 = "or" := fun hh => by
      simp [hasCombinatorKey, hh] at h
    have hnot : ¬ e.1 = "not" := fun hh => by
      simp [hasCombinatorKey, hh] at h
    have hrest : hasCombinatorKey rest = false := by
      simpa [hasCombinatorKey, hand, hor, hnot] using h
    by_cases h4 : e.1 = "range"
    · rw [gqLoop_cons_range fields e rest acc neg h4, ih _ neg hrest]
      simp [collectClauses, h4]
    · by_cases h5 : e.1 = "match"
      · rw [gqLoop_cons_match fields e rest acc neg h5, ih _ neg hrest]
        simp [collectClauses, h5]
      · by_cases h6 : e.1 = "exists"
        · rw [gqLoop_cons_exists fields e rest acc neg h6, ih _ neg hrest]
          simp [collectClauses, h6]
        · rw [gqLoop_cons_other fields e rest acc neg hand hor hnot h4 h5 h6,
            ih acc neg hrest]
          simp [collectClauses, hand, hor, hnot, h4, h5, h6]

/-- When the first recognized key is `and` or `or`, the loop's result
depends neither on the collected clauses nor on the negate flag. -/
theorem gqLoop_first_and_or (fields : Schema) :
    ∀ (kvs : List (String × Value)),
      (firstRecognizedKey kvs = some "and" ∨
       firstRecognizedKey kvs = some "or") →
      ∀ (acc : List Value) (neg : Bool) (acc2 : List Value) (neg2 : Bool),
        gqLoop fields kvs acc neg = gqLoop fields kvs acc2 neg2 := by
  intro kvs
  induction kvs with
  | nil => intro h; simp [firstRecognizedKey] at h
  | cons e rest ih =>
    intro h acc neg acc2 neg2
    by_cases h1 : e.1 = "and"
    · rw [gqLoop_cons_and fields e rest acc neg h1,
        gqLoop_cons_and fields e rest acc2 neg2 h1]
    · by_cases h2 : e.1 = "or"
      · rw [gqLoop_cons_or fields e rest acc neg h2,
          gqLoop_cons_or fields e rest acc2 neg2 h2]
      · have hrec : firstRecognizedKey (e :: rest)
            = match e.1 with
              | "and" | "or" | "not" | "range" | "match" | "exists" =>
                some e.1
              | _ => firstRecognizedKey rest := rfl
        by_cases h3 : e.1 = "not"
        · rw [hrec] at h
          simp [h3] at h
        · by_cases h4 : e.1 = "range"
          · rw [hrec] at h
            simp [h4] at h
          · by_cases h5 : e.1 = "match"
            · rw [hrec] at h
              simp [h5] at h
            · by_cases h6 : e.1 = "exists"
              · rw [hrec] at h
                simp [h6] at h
              · rw [gqLoop_cons_other fields e rest acc neg h1 h2 h3 h4 h5 h6,
                  gqLoop_cons_other fields e rest acc2 neg2 h1 h2 h3 h4 h5 h6]
                apply ih
                rw [hrec] at h
                simpa [h1, h2, h3, h4, h5, h6] using h


/-- C1: for every options object whose only top-level key is `not`,
generateQuery recurses into the value of `not` with the negate flag set;
on the clause-collecting path (no nested combinator key) the resulting
filter negates each collected clause post-hoc, wrapping every top-level key
of every clause in a `$not` operator after compilation, rather than pushing
negation through `and`/`or` combinators. -/
theorem C1_not_recursion_and_postwrap (fields : Schema) (sub : Value) :
    generateQuery fields (.obj [("not", sub)]) false
      = generateQuery fields sub true ∧
    (hasCombinatorKey (jsEntries sub) = false →
      generateQuery fields sub true =
        combineClauses
          ((collectClauses fields (jsEntries sub)).map applyNotOperator)) ∧
    (∀ clause : Value, (keysOf (jsEntries clause)).Nodup →
      applyNotOperator clause =
        .obj ((jsEntries clause).map
          (fun e => (e.1, .obj [("$not", e.2)])))) := by
  refine ⟨?_, ?_, ?_⟩
  · rw [show generateQuery fields (.obj [("not", sub)]) false
        = gqLoop fields [("not", sub)] [] false by
      simp [generateQuery, jsEntries]]
    exact gqLoop_cons_not fields ("not", sub) [] [] false rfl
  · intro h
    rw [show generateQuery fields sub true
        = gqLoop fields (jsEntries sub) [] true by simp [generateQuery]]
    rw [gqLoop_no_comb fields (jsEntries sub) [] true h]
    simp
  · intro clause hnd
    unfold applyNotOperator
    rw [mapValues_eq_map _ _ hnd]

/-- Witness for C1 at a concrete `match` subtree. -/
theorem C1_not_recursion_and_postwrap_witness :
    generateQuery fieldsW
        (.obj [("not", .obj [("match", .obj [("status", .str "active")])])])
        false
      = generateQuery fieldsW
          (.obj [("match", .obj [("status", .str "active")])]) true ∧
    generateQuery fieldsW
        (.obj [("match", .obj [("status", .str "active")])]) true
      = .obj [("status", .obj [("$not", .str "active")])] := by
  have h := C1_not_recursion_and_postwrap fieldsW
    (.obj [("match", .obj [("status", .str "active")])])
  exact ⟨h.1, (h.2.1 rfl).trans (by rfl)⟩

/-- C4: at a level with no combinator key, the collected clauses are
combined by the exact shape rule: zero clauses yield the empty match-all
filter, exactly one clause is returned unwrapped, two or more are wrapped
under `$and`. -/
theorem C4_conjunction_shape (fields : Schema) (kvs : List (String × Value))
    (neg : Bool) (h : hasCombinatorKey kvs = false) :
    ((if neg then (collectClauses fields kvs).map applyNotOperator
      else collectClauses fields kvs) = [] →
      generateQuery fields (.obj kvs) neg = .obj []) ∧
    (∀ c, (if neg then (collectClauses fields kvs).map applyNotOperator
      else collectClauses fields kvs) = [c] →
      generateQuery fields (.obj kvs) neg = c) ∧
    (∀ c1 c2 cr,
      (if neg then (collectClauses fields kvs).map applyNotOperator
        else collectClauses fields kvs) = c1 :: c2 :: cr →
      generateQuery fields (.obj kvs) neg
        = .obj [("$and", .arr (c1 :: c2 :: cr))]) := by
  have hgq : generateQuery fields (.obj kvs) neg
      = combineClauses (if neg then
          (collectClauses fields kvs).map applyNotOperator
        else collectClauses fields kvs) := by
    rw [show generateQuery fields (.obj kvs) neg
        = gqLoop fields kvs [] neg by simp [generateQuery, jsEntries]]
    rw [gqLoop_no_comb fields kvs [] neg h]
    simp
  refine ⟨?_, ?_, ?_⟩
  · intro h1; rw [hgq, h1]; rfl
  · intro c h1; rw [hgq, h1]; rfl
  · intro c1 c2 cr h1; rw [hgq, h1]; rfl

/-- Concrete options fixture with two clause-producing keys. -/
def kvsW : List (String × Value) :=
  [("match", .obj [("status", .str "a")]),
   ("exists", .obj [("name", .bool true)])]

/-- Witness for C4: two clauses get wrapped under `$and`. -/
theorem C4_conjunction_shape_witness :
    generateQuery fieldsW (.obj kvsW) false =
      .obj [("$and", .arr [.obj [("status", .str "a")],
        .obj [("name", .obj [("$ne", .null)])]])] := by
  have h := C4_conjunction_shape fieldsW kvsW false rfl
  exact h.2.2 (.obj [("status", .str "a")])
    (.obj [("name", .obj [("$ne", .null)])]) [] rfl

/-- C10: wrapping a subtree whose first recognized key is `and` or `or` in
`not` is the identity: the combinator branch returns before the negation
wrapper is applied, so the requested negation is silently discarded. -/
theorem C10_not_discards_on_and_or (fields : Schema) (sub : Value)
    (h : firstRecognizedKey (jsEntries sub) = some "and" ∨
         firstRecognizedKey (jsEntries sub) = some "or") :
    generateQuery fields (.obj [("not", sub)]) false
      = generateQuery fields sub false := by
  rw [show generateQuery fields (.obj [("not", sub)]) false
      = gqLoop fields [("not", sub)] [] false by
    simp [generateQuery, jsEntries]]
  rw [gqLoop_cons_not fields ("not", sub) [] [] false rfl]
  rw [show generateQuery fields sub true
      = gqLoop fields (jsEntries sub) [] true by simp [generateQuery]]
  rw [show generateQuery fields sub false
      = gqLoop fields (jsEntries sub) [] false by simp [generateQuery]]
  exact gqLoop_first_and_or fields (jsEntries sub) h [] true [] false

/-- Concrete `and` subtree fixture. -/
def subAnd : Value :=
  .obj [("and", .obj [("0", .obj [("match", .obj [("status", .str "x")])])])]

/-- Witness for C10 at a concrete `and` subtree. -/
theorem C10_not_discards_on_and_or_witness :
    generateQuery fieldsW (.obj [("not", subAnd)]) false
      = generateQuery fieldsW subAnd false :=
  C10_not_discards_on_and_or fieldsW subAnd (Or.inl rfl)

/-- C5 (amended): an `exists` entry on a declared array field compiles
`true` to a not-equal-to-empty-array clause and `false` to an
equals-empty-array clause; on a declared scalar field `true` to not-null and
`false` to null; a field absent from the schema is NOT dropped: its key is
present in the compiled clause, mapped to the undefined value (a no-op
clause). -/
theorem C5_exists_compilation (fields : Schema) (k : String) (fd : FieldDef)
    (v : Value) :
    (alistLookup fields k = some fd → fd.isArray = true →
      generateQuery fields (.obj [("exists", .obj [(k, v)])]) false =
        .obj [(k, if truthy v then .obj [("$ne", .arr [])] else .arr [])]) ∧
    (alistLookup fields k = some fd → fd.isArray = false →
      generateQuery fields (.obj [("exists", .obj [(k, v)])]) false =
        .obj [(k, if truthy v then .obj [("$ne", .null)] else .null)]) ∧
    (alistLookup fields k = none →
      generateQuery fields (.obj [("exists", .obj [(k, v)])]) false =
        .obj [(k, .undefined)]) := by
  have hgq : generateQuery fields (.obj [("exists", .obj [(k, v)])]) false
      = existsClause fields (.obj [(k, v)]) := by
    rw [show generateQuery fields (.obj [("exists", .obj [(k, v)])]) false
        = gqLoop fields [("exists", .obj [(k, v)])] [] false by
      simp [generateQuery, jsEntries]]
    rw [gqLoop_cons_exists fields ("exists", .obj [(k, v)]) [] [] false rfl]
    rw [gqLoop_nil]
    rfl
  have hclause : existsClause fields (.obj [(k, v)]) =
      .obj [(k, match alistLookup fields k with
        | none => .undefined
        | some fd =>
          if fd.isArray then
            if truthy v then .obj [("$ne", .arr [])] else .arr []
          else
            if truthy v then .obj [("$ne", .null)] else .null)] := rfl
  refine ⟨?_, ?_, ?_⟩
  · intro hfd harr
    rw [hgq, hclause]
    simp [hfd, harr]
  · intro hfd harr
    rw [hgq, hclause]
    simp [hfd, harr]
  · intro hfd
    rw [hgq, hclause]
    simp [hfd]

/-- Witness for C5 (amended) on declared fields of both kinds. -/
theorem C5_exists_compilation_witness :
    generateQuery fieldsW (.obj [("exists", .obj [("tags", .bool true)])])
        false = .obj [("tags", .obj [("$ne", .arr [])])] ∧
    generateQuery fieldsW (.obj [("exists", .obj [("name", .bool false)])])
        false = .obj [("name", .null)] := by
  have h1 := (C5_exists_compilation fieldsW "tags"
    ⟨some .plain, true, false⟩ (.bool true)).1 rfl rfl
  have h2 := (C5_exists_compilation fieldsW "name"
    ⟨some .plain, false, false⟩ (.bool false)).2.1 rfl rfl
  exact ⟨h1.trans (by rfl), h2.trans (by rfl)⟩

/-- Counterexample for C5 as stated: for the field `unknown`, absent from
the schema, the compiled filter contains the key `unknown` (mapped to
undefined) — it is not dropped. -/
theorem C5_exists_unknown_key_present :
    generateQuery fieldsW
        (.obj [("exists", .obj [("unknown", .bool true)])]) false
      = .obj [("unknown", .undefined)] ∧
    hasKey (jsEntries (generateQuery fieldsW
        (.obj [("exists", .obj [("unknown", .bool true)])]) false))
      "unknown" = true := by
  have hgq : generateQuery fieldsW
      (.obj [("exists", .obj [("unknown", .bool true)])]) false
      = .obj [("unknown", .undefined)] := by
    rw [show generateQuery fieldsW
        (.obj [("exists", .obj [("unknown", .bool true)])]) false
        = gqLoop fieldsW [("exists", .obj [("unknown", .bool true)])] []
            false by
      simp [generateQuery, jsEntries]]
    rw [gqLoop_cons_exists fieldsW ("exists", .obj [("unknown", .bool true)])
      [] [] false rfl]
    rw [gqLoop_nil]
    rfl
  exact ⟨hgq, by rw [hgq]; rfl⟩


/-- C3: a `range` entry on a declared array-typed field compiles a bound
[lo, hi] to an existence assertion on index lo-1 (must exist) and on index
hi (must not exist), either bound omissible when null; on a declared scalar
field it compiles to not-null plus optional `$gte`/`$lte` bounds cast
through the value coercion; a field absent from the schema produces no
clause; and for the array field `tags`, range [2, 5] compiles to
"tags.1 exists and tags.5 does not exist". -/
theorem C3_range_compilation (fields : Schema) (k : String) (fd : FieldDef)
    (lo hi : Value) :
    (alistLookup fields k = some fd → fd.isArray = true →
     nullish lo = false → nullish hi = false →
     ¬ (k ++ "." ++ lowerIndexString lo = k ++ "." ++ boundKeyString hi) →
      generateRangeQuery fields (.obj [(k, .arr [lo, hi])]) =
        .obj [(k ++ "." ++ lowerIndexString lo,
                .obj [("$exists", .bool true)]),
              (k ++ "." ++ boundKeyString hi,
                .obj [("$exists", .bool false)])]) ∧
    (alistLookup fields k = some fd → fd.isArray = true →
     nullish lo = false → nullish hi = true →
      generateRangeQuery fields (.obj [(k, .arr [lo, hi])]) =
        .obj [(k ++ "." ++ lowerIndexString lo,
                .obj [("$exists", .bool true)])]) ∧
    (alistLookup fields k = some fd → fd.isArray = true →
     nullish lo = true → nullish hi = false →
      generateRangeQuery fields (.obj [(k, .arr [lo, hi])]) =
        .obj [(k ++ "." ++ boundKeyString hi,
                .obj [("$exists", .bool false)])]) ∧
    (alistLookup fields k = some fd → fd.isArray = false →
      generateRangeQuery fields (.obj [(k, .arr [lo, hi])]) =
        .obj [(k, .obj ([("$ne", Value.null)]
          ++ (if nullish lo then [] else [("$gte", castValue lo)])
          ++ (if nullish hi then [] else [("$lte", castValue hi)])))]) ∧
    (alistLookup fields k = none →
      generateRangeQuery fields (.obj [(k, .arr [lo, hi])]) = .obj []) ∧
    generateQuery fieldsW
        (.obj [("range", .obj [("tags", .arr [.num 2, .num 5])])]) false =
      .obj [("tags.1", .obj [("$exists", .bool true)]),
            ("tags.5", .obj [("$exists", .bool false)])] := by
  refine ⟨?_, ?_, ?_, ?_, ?_, ?_⟩
  · intro hfd harr hlo hhi hne
    unfold generateRangeQuery
    simp [jsEntries, hfd, harr, vIndex, hlo, hhi, objInsert, hne]
  · intro hfd harr hlo hhi
    unfold generateRangeQuery
    simp [jsEntries, hfd, harr, vIndex, hlo, hhi, objInsert]
  · intro hfd harr hlo hhi
    unfold generateRangeQuery
    simp [jsEntries, hfd, harr, vIndex, hlo, hhi, objInsert]
  · intro hfd hsc
    unfold generateRangeQuery
    by_cases hlo : nullish lo <;> by_cases hhi : nullish hi <;>
      simp [jsEntries, hfd, hsc, vIndex, hlo, hhi, objInsert]
  · intro hfd
    unfold generateRangeQuery
    simp [jsEntries, hfd]
  · rw [show generateQuery fieldsW
        (.obj [("range", .obj [("tags", .arr [.num 2, .num 5])])]) false
        = gqLoop fieldsW
            [("range", .obj [("tags", .arr [.num 2, .num 5])])] [] false by
      simp [generateQuery, jsEntries]]
    rw [gqLoop_cons_range fieldsW
      ("range", .obj [("tags", .arr [.num 2, .num 5])]) [] [] false rfl]
    rw [gqLoop_nil]
    rfl

/-- Witness for C3 at concrete array, scalar and unknown fields. -/
theorem C3_range_compilation_witness :
    generateRangeQuery fieldsW (.obj [("tags", .arr [.num 2, .num 5])]) =
      .obj [("tags.1", .obj [("$exists", .bool true)]),
            ("tags.5", .obj [("$exists", .bool false)])] ∧
    generateRangeQuery fieldsW (.obj [("name", .arr [.num 1, .num 3])]) =
      .obj [("name", .obj [("$ne", .null), ("$gte", .num 1),
        ("$lte", .num 3)])] ∧
    generateRangeQuery fieldsW (.obj [("unknown", .arr [.num 1, .num 3])]) =
      .obj [] := by
  have h1 := (C3_range_compilation fieldsW "tags" ⟨some .plain, true, false⟩
    (.num 2) (.num 5)).1 rfl rfl rfl rfl (by decide)
  have h2 := (C3_range_compilation fieldsW "name" ⟨some .plain, false, false⟩
    (.num 1) (.num 3)).2.2.2.1 rfl rfl
  have h3 := (C3_range_compilation fieldsW "unknown"
    ⟨some .plain, false, false⟩ (.num 1) (.num 3)).2.2.2.2.1 rfl
  exact ⟨h1.trans (by rfl), h2.trans (by rfl), h3⟩


/-- Concrete schema with buffer fields. -/
def fieldsB : Schema :=
  [("data", ⟨some .buffer, false, false⟩),
   ("chunks", ⟨some .buffer, true, false⟩)]

/-- Concrete record carrying a scalar buffer and an array of buffers. -/
def recB : Obj :=
  [("id", .str "1"), ("data", .buf [1, 255]),
   ("chunks", .arr [.buf [7], .buf []])]

/-- Witness for C6 at a concrete scalar buffer and buffer array. -/
theorem C6_buffer_roundtrip_witness :
    alistLookup
        (outputRecord "id" fieldsB (inputRecord "id" fieldsB "g" recB)).entries
        "data" = some (.buf [1, 255]) ∧
    alistLookup
        (outputRecord "id" fieldsB (inputRecord "id" fieldsB "g" recB)).entries
        "chunks" = some (.arr [.buf [7], .buf []]) := by
  have h1 := (C6_buffer_roundtrip "id" "g" "data" fieldsB recB
    ⟨some .buffer, false, false⟩ (by decide) (by decide) rfl rfl).1
    [1, 255] rfl rfl (by decide) (by decide)
  have h2 := (C6_buffer_roundtrip "id" "g" "chunks" fieldsB recB
    ⟨some .buffer, true, false⟩ (by decide) (by decide) rfl rfl).2
    [[7], []] rfl rfl (by decide)
  exact ⟨h1, h2⟩

/-- C7: a batched create rejects with the ORM's conflict error carrying the
fixed message "Duplicate key." exactly when the store reports a
`uniqueViolated` error; any other store error is surfaced raw; on success
the result is the `outputRecord`-decoded inserted records. -/
theorem C7_create_conflict_mapping (pk : String) (fields : Schema)
    (records : List Obj) (freshIds : List String)
    (insert : List Obj → Except StoreError (List Obj)) :
    (∀ e, insert ((records.zip freshIds).map
        (fun p => inputRecord pk fields p.2 p.1)) = .error e →
      e.errorType = some "uniqueViolated" →
      create pk fields records freshIds insert
        = .error (.conflict "Duplicate key.")) ∧
    (∀ e, insert ((records.zip freshIds).map
        (fun p => inputRecord pk fields p.2 p.1)) = .error e →
      ¬ e.errorType = some "uniqueViolated" →
      create pk fields records freshIds insert = .error (.store e)) ∧
    (∀ rs, insert ((records.zip freshIds).map
        (fun p => inputRecord pk fields p.2 p.1)) = .ok rs →
      create pk fields records freshIds insert
        = .ok (rs.map (outputRecord pk fields))) := by
  refine ⟨?_, ?_, ?_⟩
  · intro e h he
    unfold create
    rw [h]
    simp [he]
  · intro e h he
    unfold create
    rw [h]
    simp [he]
  · intro rs h
    unfold create
    rw [h]

/-- Witness for C7: concrete stores reporting a uniqueness violation,
another error, and success. -/
theorem C7_create_conflict_mapping_witness :
    create "id" fieldsW [] []
        (fun _ => .error ⟨some "uniqueViolated", "u"⟩)
      = .error (.conflict "Duplicate key.") ∧
    create "id" fieldsW [] [] (fun _ => .error ⟨some "ioFailure", "x"⟩)
      = .error (.store ⟨some "ioFailure", "x"⟩) ∧
    create "id" fieldsW [] [] (fun _ => .ok [])
      = .ok [] := by
  refine ⟨?_, ?_, ?_⟩
  · exact (C7_create_conflict_mapping "id" fieldsW [] []
      (fun _ => .error ⟨some "uniqueViolated", "u"⟩)).1
      ⟨some "uniqueViolated", "u"⟩ rfl rfl
  · exact (C7_create_conflict_mapping "id" fieldsW [] []
      (fun _ => .error ⟨some "ioFailure", "x"⟩)).2.1
      ⟨some "ioFailure", "x"⟩ rfl (by decide)
  · exact (C7_create_conflict_mapping "id" fieldsW [] []
      (fun _ => .ok [])).2.2 [] rfl

theorem objAssign_lookup (o : Obj) (hO : (keysOf o).Nodup) :
    ∀ (m : Obj) (k : String),
      alistLookup (objAssign m o) k =
        if hasKey o k then alistLookup o k else alistLookup m k := by
  induction o with
  | nil =>
    intro m k
    simp [objAssign, hasKey, alistLookup]
  | cons e rest ih =>
    intro m k
    rw [show keysOf (e :: rest) = e.1 :: keysOf rest from rfl,
      List.nodup_cons] at hO
    rw [show objAssign m (e :: rest)
        = objAssign (objInsert m e.1 e.2) rest from rfl]
    rw [ih hO.2]
    by_cases hke : k = e.1
    · have hf : hasKey rest e.1 = false := by
        by_cases h : hasKey rest e.1
        · exact absurd ((hasKey_iff_mem rest e.1).mp h) hO.1
        · simpa using h
      rw [hke]
      rw [if_neg (show ¬ (hasKey rest e.1 = true) by simp [hf])]
      rw [alistLookup_objInsert, if_pos rfl]
      have hcons : hasKey (e :: rest) e.1 = true := by
        rw [hasKey_cons]; simp
      rw [if_pos hcons]
      simp [alistLookup]
    · have hne : ¬ e.1 = k := fun h => hke h.symm
      rw [hasKey_cons, if_neg hne,
        show alistLookup (e :: rest) k = alistLookup rest k by
          simp [alistLookup, hne],
        alistLookup_objInsert, if_neg hke]


/-- C8 (amended): an update item whose computed modifier object is empty —
no replace/push/pull keys and `operate` absent or empty — contributes an
affected-count of 0 and issues no native update call; every item whose
modifier object is non-empty issues exactly one native call, with `operate`
keys taking precedence over the built-in modifiers on key collision; the
operation's result is the sum of the per-item affected counts. -/
theorem C8_update_noop_and_sum (storeUpdate : Value → Obj → Nat) :
    (∀ u : UpdateItem, u.replace = none → u.push = none → u.pull = none →
      u.operate = none →
      buildModifiers u = [] ∧ updateItemCount storeUpdate u = 0 ∧
        updateItemCalls u = 0) ∧
    (∀ u : UpdateItem, buildModifiers u = [] →
      updateItemCount storeUpdate u = 0 ∧ updateItemCalls u = 0) ∧
    (∀ u : UpdateItem, ¬ buildModifiers u = [] → updateItemCalls u = 1) ∧
    (∀ (u : UpdateItem) (o : Obj), u.operate = some o →
      (keysOf o).Nodup → ∀ k, hasKey o k = true →
      alistLookup (buildModifiers u) k = alistLookup o k) ∧
    (∀ us : List UpdateItem, update storeUpdate us =
      (us.map (updateItemCount storeUpdate)).foldl
        (fun accumulator number => accumulator + number) 0) := by
  refine ⟨?_, ?_, ?_, ?_, ?_⟩
  · intro u hr hpu hpl hop
    obtain ⟨uid, ur, upu, upl, uop⟩ := u
    simp only at hr hpu hpl hop
    subst hr; subst hpu; subst hpl; subst hop
    exact ⟨rfl, rfl, rfl⟩
  · intro u h
    unfold updateItemCount updateItemCalls
    rw [h]
    simp
  · intro u h
    cases hb : buildModifiers u with
    | nil => exact absurd hb h
    | cons x xs => simp [updateItemCalls, hb]
  · intro u o hop hO k hk
    simp only [buildModifiers, hop]
    rw [objAssign_lookup o hO _ k]
    simp [hk]
  · intro us
    rfl

/-- Update item whose only key is an empty `operate` object. -/
def itemOnlyOperate : UpdateItem := ⟨.str "1", none, none, none, some []⟩

/-- Counterexample for C8 as stated: this item carries an `operate` key, so
it is not an item "with no replace, push, pull, or operate keys", yet it
issues zero native update calls where the claim requires exactly one, and
contributes 0 regardless of the store. -/
theorem C8_operate_empty_no_call :
    itemOnlyOperate.operate.isSome = true ∧
    updateItemCalls itemOnlyOperate = 0 ∧
    updateItemCount (fun _ _ => 5) itemOnlyOperate = 0 :=
  ⟨rfl, rfl, rfl⟩

/-- Witness for C8 (amended) at concrete update items. -/
theorem C8_update_noop_and_sum_witness :
    update (fun _ _ => 3)
      [⟨.str "a", none, none, none, none⟩,
       ⟨.str "b", some [("x", .num 1)], none, none, none⟩] = 3 ∧
    updateItemCalls (⟨.str "a", none, none, none, none⟩ : UpdateItem) = 0 ∧
    updateItemCalls
      (⟨.str "b", some [("x", .num 1)], none, none, none⟩ : UpdateItem)
        = 1 ∧
    alistLookup (buildModifiers ⟨.str "c", some [("x", .num 1)], none, none,
      some [("$set", .num 9)]⟩) "$set" = some (.num 9) := by
  have h := C8_update_noop_and_sum (fun _ _ => 3)
  refine ⟨?_, ?_, ?_, ?_⟩
  · exact (h.2.2.2.2 _).trans (by rfl)
  · exact (h.1 ⟨.str "a", none, none, none, none⟩ rfl rfl rfl rfl).2.2
  · refine h.2.2.1 ⟨.str "b", some [("x", .num 1)], none, none, none⟩ ?_
    intro hh
    have h2 : ([("$set", Value.obj [("x", Value.num 1)])] : Obj) = [] := hh
    exact List.noConfusion h2
  · exact (h.2.2.2.1 ⟨.str "c", some [("x", .num 1)], none, none,
      some [("$set", .num 9)]⟩ [("$set", .num 9)] rfl (by decide) "$set"
      rfl).trans (by rfl)

theorem b64Char_mem : ∀ s : Nat, s < 64 → b64Char s ∈ b64Table := by decide

theorem b64Encode_mem_table :
    ∀ l : List Nat, l.length % 3 = 0 → (∀ x ∈ l, x < 256) →
      ∀ c ∈ b64Encode l, c ∈ b64Table := by
  intro l
  induction l using b64Encode.induct with
  | case1 a b c rest ih =>
    intro hlen hb ch hch
    have ha2 : a < 256 := hb a (by simp)
    have hb2 : b < 256 := hb b (by simp)
    have hc2 : c < 256 := hb c (by simp)
    rw [b64Encode] at hch
    simp only [List.mem_cons] at hch
    rcases hch with h | h | h | h | h
    · exact h ▸ b64Char_mem _ (by omega)
    · exact h ▸ b64Char_mem _ (by omega)
    · exact h ▸ b64Char_mem _ (by omega)
    · exact h ▸ b64Char_mem _ (by omega)
    · exact ih (by simp at hlen ⊢; omega)
        (fun x hx => hb x (by simp [hx])) ch h
  | case2 a b => intro hlen; simp at hlen
  | case3 a => intro hlen; simp at hlen
  | case4 =>
    intro _ _ ch hch
    simp [b64Encode] at hch

/-- C9 (amended): an identifier is the base64 text encoding — not URL-safe:
the alphabet includes '+' and '/' — of the 15 cryptographically random
bytes, is exactly 20 characters long, and is a function of nothing but
those bytes. -/
theorem C9_generateId_length_alphabet (bytes : List Nat)
    (h15 : bytes.length = 15) (hb : ∀ x ∈ bytes, x < 256) :
    (generateId bytes).length = 20 ∧
    ∀ c ∈ (generateId bytes).toList, c ∈ b64Table := by
  constructor
  · show (String.mk (b64Encode bytes)).length = 20
    rw [show (String.mk (b64Encode bytes)).length
        = (b64Encode bytes).length from rfl]
    rw [b64Encode_length, h15]
  · intro c hc
    refine b64Encode_mem_table bytes (by rw [h15]) hb c ?_
    simpa using hc

/-- A URL-safe identifier character: letters, digits, '-' and '_'. -/
def urlSafeChar (c : Char) : Bool := c.isAlphanum || c = '-' || c = '_'

/-- Counterexample for C9 as stated: all-0xFF random bytes yield the
identifier "////////////////////", which contains the non-URL-safe
character '/'. -/
theorem C9_generateId_not_urlsafe :
    generateId (List.replicate 15 255) = "////////////////////" ∧
    '/' ∈ (generateId (List.replicate 15 255)).toList ∧
    urlSafeChar '/' = false := by
  refine ⟨by decide, by decide, rfl⟩

/-- Witness for C9 (amended) at a concrete byte list. -/
theorem C9_generateId_length_alphabet_witness :
    (generateId (List.replicate 15 0)).length = 20 ∧
    ∀ c ∈ (generateId (List.replicate 15 0)).toList, c ∈ b64Table := by
  have h := C9_generateId_length_alphabet (List.replicate 15 0)
    (by decide) (by decide)
  exact ⟨h.1, h.2⟩

end FortuneNedb
